import Mathlib

/-!
Verification of the magic-wormhole Rust client core (src/core.rs and
src/io/blocking.rs) against its natural-language specification.

Machine integers are modelled as `Nat` with explicit `% 2^w` where overflow
matters; byte vectors are `List Nat`; fallible Rust code (`Result`, panics,
`unwrap`) is modelled with `Option`/`Except`.  The NaCl secretbox primitive
(`sodiumoxide::crypto::secretbox`), SHA-256 and the HKDF `derive_key` are
external collaborators of the core (spec §1), so they enter the embedding as
function parameters; theorems that need their algebraic contract (e.g. that
`open` inverts `sealf`) take it as an explicit hypothesis.
-/

namespace MagicWormhole

/-- `sodiumoxide::crypto::secretbox::NONCEBYTES` (24). -/
def NONCEBYTES : Nat := 24

/-- `sodiumoxide::crypto::secretbox::KEYBYTES` (32). -/
def KEYBYTES : Nat := 32

/-- One hex digit, lowercase, as produced by `hex::encode`. -/
def hexDigit (n : Nat) : Char :=
  if n < 10 then Char.ofNat (48 + n) else Char.ofNat (87 + n)

/-- The two hex digits of one byte (`hex::encode` works on `u8`, whence the
explicit `% 16` wrap on the high digit). -/
def hexEncodeByte (b : Nat) : List Char :=
  [hexDigit (b / 16 % 16), hexDigit (b % 16)]

/-- `hex::encode`: each byte becomes two lowercase hex characters. -/
def hexEncode (bs : List Nat) : String :=
  ⟨(bs.map hexEncodeByte).flatten⟩

/-- The `len`-byte little-endian representation of `n` (byte `i` is
`n / 256^i % 256`); values ≥ 256^len wrap, as `sodium_increment` does. -/
def natToLEBytes (len n : Nat) : List Nat :=
  (List.range len).map (fun i => n / 256 ^ i % 256)

/-- The `len`-byte big-endian representation of `n` (e.g. `u32::to_be_bytes`
for `len = 4`; the cast `as u32` wrap is the implicit `% 2^32`). -/
def natToBEBytes (len n : Nat) : List Nat :=
  (natToLEBytes len n).reverse

/-- `u32::from_be_bytes` over bytes already reduced `% 256`. -/
def be32ToNat (bs : List Nat) : Nat :=
  bs.foldl (fun a b => a * 256 + b % 256) 0

/-- `str::as_bytes` restricted to the ASCII strings this protocol sends. -/
def strToBytes (s : String) : List Nat :=
  s.data.map Char.toNat

/-- `str::from_utf8`: the embedding only needs the ASCII fragment, so byte
sequences with a byte ≥ 128 are rejected. -/
def bytesToStr (bs : List Nat) : Option String :=
  if bs.all (· < 128) then some ⟨bs.map Char.ofNat⟩ else none

theorem hexEncode_length (bs : List Nat) : (hexEncode bs).length = 2 * bs.length := by
  induction bs with
  | nil => rfl
  | cons b t ih =>
    simp only [hexEncode, String.length, List.map_cons, List.flatten, hexEncodeByte] at *
    simp [List.length_append] at *
    omega

/-- `io/blocking.rs` `encrypt_record` (lines 770–785): reverse the counter
nonce, seal with the reversed nonce, and emit `reversed-nonce ++ ciphertext`.
`sealf` is `secretbox::seal(plaintext, nonce, key)`; the
`Key::from_slice(..).unwrap()` panic and the `Nonce::from_slice` error are
both modelled as `none`. -/
def encrypt_record (sealf : List Nat → List Nat → List Nat → List Nat)
    (plaintext nonce key : List Nat) : Option (List Nat) :=
  if key.length = KEYBYTES then
    let nonce_vec := nonce.reverse
    if nonce_vec.length = NONCEBYTES then
      some (nonce_vec ++ sealf plaintext nonce_vec key)
    else none
  else none

/-- `io/blocking.rs` `decrypt_record` (lines 787–801): split the leading
24-byte nonce off the packet and open the remainder with it.  `openf` is
`secretbox::open(ciphertext, nonce, key)` returning `none` on failure; the
`assert_eq!` on the nonce length and the `Key::from_slice` failure are
modelled as `none`. -/
def decrypt_record (openf : List Nat → List Nat → List Nat → Option (List Nat))
    (enc_packet key : List Nat) : Option (List Nat) :=
  let nonce := enc_packet.take NONCEBYTES
  let ciphertext := enc_packet.drop NONCEBYTES
  if nonce.length = NONCEBYTES ∧ key.length = KEYBYTES then
    openf ciphertext nonce key
  else none

theorem decrypt_record_encrypt_record
    (sealf : List Nat → List Nat → List Nat → List Nat)
    (openf : List Nat → List Nat → List Nat → Option (List Nat))
    (hinv : ∀ m n k, openf (sealf m n k) n k = some m)
    (m nonce key : List Nat)
    (hn : nonce.length = NONCEBYTES) (hk : key.length = KEYBYTES)
    (e : List Nat) (he : encrypt_record sealf m nonce key = some e) :
    decrypt_record openf e key = some m := by
  have hrn : nonce.reverse.length = NONCEBYTES := by
    simpa using hn
  simp only [encrypt_record, hk, if_pos, hrn, if_true] at he
  have he' := Option.some.inj he
  subst he'
  simp only [decrypt_record]
  rw [List.take_left' hrn, List.drop_left' hrn]
  simp [hrn, hk, hinv]

/-- Claim C6: for every plaintext `m`, 32-byte key and 24-byte nonce,
`decrypt_record (encrypt_record m nonce key) key = m`: `encrypt_record`
emits the byte-reversed nonce followed by the ciphertext and
`decrypt_record` splits the nonce back off the front, so the round trip
recovers `m` whenever the secretbox `open` inverts `sealf`. -/
theorem C6_encrypt_decrypt_roundtrip
    (sealf : List Nat → List Nat → List Nat → List Nat)
    (openf : List Nat → List Nat → List Nat → Option (List Nat))
    (hinv : ∀ m n k, openf (sealf m n k) n k = some m)
    (m nonce key : List Nat)
    (hn : nonce.length = NONCEBYTES) (hk : key.length = KEYBYTES)
    (e : List Nat) (he : encrypt_record sealf m nonce key = some e) :
    decrypt_record openf e key = some m :=
  decrypt_record_encrypt_record sealf openf hinv m nonce key hn hk e he

theorem C6_encrypt_decrypt_roundtrip_witness :
    decrypt_record (fun c _ _ => some c)
      ((List.replicate 24 0).reverse ++ [1, 2, 3]) (List.replicate 32 0)
      = some [1, 2, 3] :=
  C6_encrypt_decrypt_roundtrip (fun m _ _ => m) (fun c _ _ => some c)
    (fun _ _ _ => rfl) [1, 2, 3] (List.replicate 24 0) (List.replicate 32 0)
    (by simp [NONCEBYTES]) (by simp [KEYBYTES]) _ rfl

/-- The part of the `WormholeCore` state that `derive_key` could consult:
whether the session key has been established (`core.rs` field `key`).  The
Rust method ignores it and panics. -/
structure CoreKeyState where
  key : Option (List Nat)

/-- `core.rs` `WormholeCore::derive_key` (lines 116–122): the body is
`panic!("not implemented")`, modelled as `none`: no call returns a key. -/
def WormholeCore.derive_key (_core : CoreKeyState) (_purpose : String)
    (_length : Nat) : Option (List Nat) :=
  none

/-- Claim C9: for every purpose string and length argument (and regardless of
whether the session key has been established), `WormholeCore::derive_key`
panics unconditionally — it is unimplemented and never returns a derived
key. -/
theorem C9_derive_key_panics (core : CoreKeyState) (purpose : String)
    (length : Nat) :
    WormholeCore.derive_key core purpose length = none :=
  rfl

/-! ## Transit handshake (claim C1)

`derive_key_from_purpose` calls the HKDF `derive_key` from
`src/core/key.rs`, which is not part of the sources under review; the
embedding therefore takes the derivation as a parameter
`dkp : key → purpose → sub-key` and theorems assume only its output length
(`KEYBYTES`), which is all the handshake format depends on. -/

/-- `io/blocking.rs` `HostType` (lines 94–98). -/
inductive HostType where
  | Direct
  | Relay
deriving DecidableEq

/-- `io/blocking.rs` `make_receive_handshake` (lines 890–896). -/
def make_receive_handshake (dkp : List Nat → String → List Nat)
    (key : List Nat) : String :=
  "transit receiver " ++ hexEncode (dkp key "transit_receiver") ++ " ready\n\n"

/-- `io/blocking.rs` `make_send_handshake` (lines 898–904). -/
def make_send_handshake (dkp : List Nat → String → List Nat)
    (key : List Nat) : String :=
  "transit sender " ++ hexEncode (dkp key "transit_sender") ++ " ready\n\n"

/-- `io/blocking.rs` `make_relay_handshake` (lines 906–912). -/
def make_relay_handshake (dkp : List Nat → String → List Nat)
    (key : List Nat) (tside : String) : String :=
  "please relay " ++ hexEncode (dkp key "transit_relay_token")
    ++ " for side " ++ tside ++ "\n"

/-- `io/blocking.rs` `make_record_keys` (lines 864–872). -/
def make_record_keys (dkp : List Nat → String → List Nat)
    (key : List Nat) : List Nat × List Nat :=
  (dkp key "transit_record_sender_key", dkp key "transit_record_receiver_key")

/-- `io/blocking.rs` `tx_handshake_exchange` (lines 969–1026), the sender
side of the handshake over the chosen socket.  The socket is modelled by the
byte stream `input` arriving from the peer; the returned value is the byte
stream the sender wrote, paired with the record keys; `none` models the
`ensure!`/read-write error paths (a short read on the blocking socket, a relay
refusal, or a handshake line mismatch).  `tside` stands for the 8 random
bytes of `generate_transit_side`. -/
def tx_handshake_exchange (dkp : List Nat → String → List Nat)
    (host_type : HostType) (key : List Nat) (tside : String)
    (input : List Char) : Option (List Char × (List Nat × List Nat)) :=
  let keys := make_record_keys dkp key
  let lineExchange : List Char → List Char →
      Option (List Char × (List Nat × List Nat)) :=
    fun sent0 rest =>
      let txm := (make_send_handshake dkp key).data
      let rxm := (make_receive_handshake dkp key).data
      if 89 ≤ rest.length ∧ rest.take 89 = rxm then
        some (sent0 ++ txm ++ ("go\n".data), keys)
      else none
  match host_type with
  | .Direct => lineExchange [] input
  | .Relay =>
    let rh := (make_relay_handshake dkp key tside).data
    if 3 ≤ input.length ∧ input.take 3 = ("ok\n".data) then
      lineExchange rh (input.drop 3)
    else none

/-- Claim C1, corrected: over the chosen socket the sender transmits the
87-byte line `transit sender <hex(subkey)> ready\n\n` (the claim said 89),
reads the peer's 89-byte line `transit receiver <hex(subkey)> ready\n\n`
(the claim said 87), succeeds exactly when the bytes read equal that
expected receiver line, and then sends `go\n`. -/
theorem C1_tx_handshake_lines (dkp : List Nat → String → List Nat)
    (key : List Nat) (tside : String) (input : List Char)
    (h32s : (dkp key "transit_sender").length = KEYBYTES)
    (h32r : (dkp key "transit_receiver").length = KEYBYTES) :
    (make_send_handshake dkp key).length = 87
    ∧ (make_receive_handshake dkp key).length = 89
    ∧ tx_handshake_exchange dkp .Direct key tside input =
        (if 89 ≤ input.length
            ∧ input.take 89 = (make_receive_handshake dkp key).data then
          some ((make_send_handshake dkp key).data ++ ("go\n".data),
            make_record_keys dkp key)
        else none) := by
  refine ⟨?_, ?_, ?_⟩
  · rw [make_send_handshake, String.length_append, String.length_append,
      hexEncode_length, h32s]
    decide
  · rw [make_receive_handshake, String.length_append, String.length_append,
      hexEncode_length, h32r]
    decide
  · simp [tx_handshake_exchange]

/-- Counterexample to claim C1 as stated: for a sub-key of the actual
`KEYBYTES` length the sender's handshake line is 87 bytes long, not 89. -/
theorem C1_sender_line_not_89 :
    (make_send_handshake (fun _ _ => List.replicate KEYBYTES 0) []).length = 87
    ∧ (87 : Nat) ≠ 89 := by
  constructor
  · decide
  · decide

theorem C1_tx_handshake_lines_witness :
    (make_send_handshake (fun _ _ => List.replicate 32 1) []).length = 87
    ∧ (make_receive_handshake (fun _ _ => List.replicate 32 1) []).length = 89
    ∧ tx_handshake_exchange (fun _ _ => List.replicate 32 1) .Direct [] ""
        (make_receive_handshake (fun _ _ => List.replicate 32 1) []).data =
        (if 89 ≤ ((make_receive_handshake (fun _ _ => List.replicate 32 1) []).data).length
            ∧ ((make_receive_handshake (fun _ _ => List.replicate 32 1) []).data).take 89
              = (make_receive_handshake (fun _ _ => List.replicate 32 1) []).data then
          some ((make_send_handshake (fun _ _ => List.replicate 32 1) []).data ++ ("go\n".data),
            make_record_keys (fun _ _ => List.replicate 32 1) [])
        else none) :=
  C1_tx_handshake_lines (fun _ _ => List.replicate 32 1) [] ""
    (make_receive_handshake (fun _ _ => List.replicate 32 1) []).data
    (by decide) (by decide)

/-! ## Transit hint race (claim C2)

`send_file` (io/blocking.rs 463–562) and `receive_file` (564–659) end in an
identical loop over the peer's hints.  TCP connection, handshake and the
actual transfer are I/O, so each host attempt is abstracted by a function
`attempt` giving the outcome the real calls would produce at that host. -/

/-- `src/core/transfer.rs` `DirectType` as used by the hint loop (the f64
`priority` field is never consulted by the code under review and floating
point is not modelled, so it is omitted). -/
structure DirectTypeM where
  hostname : String
  port : Nat
deriving DecidableEq

/-- `src/core/transfer.rs` `Hints`. -/
inductive HintsM where
  | DirectTcpV1 (d : DirectTypeM)
  | RelayV1 (hints : List DirectTypeM)
deriving DecidableEq

/-- `src/core/transfer.rs` `TransitType` as consumed here (`abilities_v1`
is never read by the hint loop). -/
structure TransitTypeM where
  hints_v1 : List HintsM
deriving DecidableEq

/-- `io/blocking.rs` `get_direct_relay_hosts` (lines 1146–1183): all direct
hints, and the hosts of the *first* relay hint only. -/
def get_direct_relay_hosts (ttype : TransitTypeM) :
    List (HostType × DirectTypeM) × List (HostType × DirectTypeM) :=
  let direct_hosts := ttype.hints_v1.filterMap (fun h =>
    match h with
    | .DirectTcpV1 d => some (HostType.Direct, d)
    | _ => none)
  let relay_hosts_list := ttype.hints_v1.filterMap (fun h =>
    match h with
    | .RelayV1 ds => some ds
    | _ => none)
  let relay_hosts := match relay_hosts_list.head? with
    | some ds => ds.map (fun d => (HostType.Relay, d))
    | none => []
  (direct_hosts, relay_hosts)

/-- Outcome of one host attempt in the loop body (io/blocking.rs 534–560 and
629–657): address resolution failure propagates out of the whole function
via `?`; a failed `connect_or_accept` or a failed handshake hits `continue`;
a successful handshake returns the result of
`tcp_file_send`/`tcp_file_receive` for the function. -/
inductive AttemptOutcome where
  | resolveErr (e : String)
  | noConnect
  | badHandshake
  | connected (r : Except String Unit)

/-- The `for host in hosts` loop shared by `send_file` (lines 534–561) and
`receive_file` (lines 629–658), ending in the literal `Ok(())` fall-through
at lines 561/658. -/
def hint_loop (attempt : HostType → DirectTypeM → AttemptOutcome) :
    List (HostType × DirectTypeM) → Except String Unit
  | [] => Except.ok ()
  | (ht, d) :: rest =>
    match attempt ht d with
    | .resolveErr e => Except.error e
    | .noConnect => hint_loop attempt rest
    | .badHandshake => hint_loop attempt rest
    | .connected r => r

/-- `Wormhole::send_file` from the point where the peer's transit message is
in hand (io/blocking.rs 519–561): direct hosts first, then relay hosts. -/
def send_file_connect_phase (attempt : HostType → DirectTypeM → AttemptOutcome)
    (ttype : TransitTypeM) : Except String Unit :=
  let hosts := get_direct_relay_hosts ttype
  hint_loop attempt (hosts.1 ++ hosts.2)

/-- `Wormhole::receive_file` from the same point (io/blocking.rs 614–658);
the loop is identical to the sender's. -/
def receive_file_connect_phase (attempt : HostType → DirectTypeM → AttemptOutcome)
    (ttype : TransitTypeM) : Except String Unit :=
  let hosts := get_direct_relay_hosts ttype
  hint_loop attempt (hosts.1 ++ hosts.2)

theorem hint_loop_all_fail (attempt : HostType → DirectTypeM → AttemptOutcome)
    (hosts : List (HostType × DirectTypeM))
    (h : ∀ ht d, attempt ht d = .noConnect ∨ attempt ht d = .badHandshake) :
    hint_loop attempt hosts = Except.ok () := by
  induction hosts with
  | nil => rfl
  | cons hd rest ih =>
    obtain ⟨ht, d⟩ := hd
    rcases h ht d with h1 | h1 <;> simp [hint_loop, h1, ih]

/-- Claim C2 is wrong about the code (and the code wrong about its intent):
when every peer hint fails to yield a TCP connection plus handshake, the
hint loops of `send_file` and `receive_file` fall through to the literal
`Ok(())`, i.e. both functions report success, not an error — the `TODO if no
handshake succeeds, return an error` at io/blocking.rs 533/628 records the
intended (and specified) behaviour. -/
theorem C2_exhausted_hints_report_success
    (attempt : HostType → DirectTypeM → AttemptOutcome) (ttype : TransitTypeM)
    (h : ∀ ht d, attempt ht d = .noConnect ∨ attempt ht d = .badHandshake) :
    send_file_connect_phase attempt ttype = Except.ok ()
    ∧ receive_file_connect_phase attempt ttype = Except.ok () :=
  ⟨hint_loop_all_fail attempt _ h, hint_loop_all_fail attempt _ h⟩

theorem C2_exhausted_hints_report_success_witness :
    send_file_connect_phase (fun _ _ => .noConnect)
      ⟨[HintsM.DirectTcpV1 ⟨"192.168.1.5", 4001⟩]⟩ = Except.ok ()
    ∧ receive_file_connect_phase (fun _ _ => .noConnect)
      ⟨[HintsM.DirectTcpV1 ⟨"192.168.1.5", 4001⟩]⟩ = Except.ok () :=
  C2_exhausted_hints_report_success (fun _ _ => .noConnect)
    ⟨[HintsM.DirectTcpV1 ⟨"192.168.1.5", 4001⟩]⟩ (fun _ _ => Or.inl rfl)

/-! ## Record streaming, sender side (claim C3) -/

/-- Propagation of the first `Err` through a sequence of fallible steps,
as the `?` operator does inside the `send_records` loop. -/
def optionTraverse {α β : Type} (g : α → Option β) : List α → Option (List β)
  | [] => some []
  | a :: t =>
    match g a, optionTraverse g t with
    | some b, some bs => some (b :: bs)
    | _, _ => none

/-- The 4096-byte plaintext block that the `k`-th iteration of the
`send_records` loop reads from the file (`file.read` at io/blocking.rs
1054–1059): bytes `4096*k` up to `4096*(k+1)` of the file. -/
def fileChunk (f : List Nat) (k : Nat) : List Nat :=
  (f.drop (4096 * k)).take 4096

/-- `io/blocking.rs` `send_record` (lines 878–884): the wire frame is the
buffer's length as `u32` big-endian, then the buffer. -/
def send_record (buf : List Nat) : List Nat :=
  natToBEBytes 4 buf.length ++ buf

/-- `io/blocking.rs` `send_records` (lines 1030–1080) as the list of frames
written to the socket, in order.  The loop reads 4096-byte chunks, encrypts
chunk `k` under the counter nonce (24 bytes, starting at zero, bumped with
`increment_le_inplace`, hence `natToLEBytes`), frames each record with
`send_record`, and stops after the first short chunk — so a file of `L`
bytes yields `L / 4096 + 1` records, the last one short (possibly empty). -/
def send_records (sealf : List Nat → List Nat → List Nat → List Nat)
    (f skey : List Nat) : Option (List (List Nat)) :=
  optionTraverse
    (fun k => (encrypt_record sealf (fileChunk f k)
        (natToLEBytes NONCEBYTES k) skey).map send_record)
    (List.range (f.length / 4096 + 1))

theorem natToLEBytes_length (len n : Nat) : (natToLEBytes len n).length = len := by
  simp [natToLEBytes]

theorem optionTraverse_eq_some {α β : Type} (g : α → Option β) :
    ∀ (l : List α) (r : List β), optionTraverse g l = some r →
      r.length = l.length
      ∧ ∀ i (hi : i < l.length) (hr : i < r.length),
          g (l.get ⟨i, hi⟩) = some (r.get ⟨i, hr⟩) := by
  intro l
  induction l with
  | nil =>
    intro r h
    simp only [optionTraverse] at h
    cases h
    exact ⟨rfl, fun i hi => absurd hi (by simp)⟩
  | cons a t ih =>
    intro r h
    cases hga : g a with
    | none => simp [optionTraverse, hga] at h
    | some b =>
      cases hgt : optionTraverse g t with
      | none => simp [optionTraverse, hga, hgt] at h
      | some bs =>
        simp only [optionTraverse, hga, hgt] at h
        cases h
        obtain ⟨hlen, hget⟩ := ih bs hgt
        refine ⟨by simp [hlen], ?_⟩
        intro i hi hr
        cases i with
        | zero => simpa using hga
        | succ j =>
          simp only [List.get_cons_succ]
          exact hget j (by simpa using hi) (by simpa using hr)

theorem optionTraverse_isSome {α β : Type} (g : α → Option β) :
    ∀ l : List α, (∀ a ∈ l, (g a).isSome) → ∃ r, optionTraverse g l = some r := by
  intro l
  induction l with
  | nil => exact fun _ => ⟨[], rfl⟩
  | cons a t ih =>
    intro h
    obtain ⟨bs, hbs⟩ := ih (fun x hx => h x (List.mem_cons_of_mem a hx))
    have ha := h a (List.mem_cons_self a t)
    cases hga : g a with
    | none => rw [hga] at ha; cases ha
    | some b => exact ⟨b :: bs, by simp [optionTraverse, hga, hbs]⟩

theorem encrypt_record_counter (sealf : List Nat → List Nat → List Nat → List Nat)
    (skey : List Nat) (hk : skey.length = KEYBYTES) (chunk : List Nat) (k : Nat) :
    encrypt_record sealf chunk (natToLEBytes NONCEBYTES k) skey
      = some ((natToLEBytes NONCEBYTES k).reverse
          ++ sealf chunk ((natToLEBytes NONCEBYTES k).reverse) skey) := by
  simp [encrypt_record, hk, natToLEBytes_length]

/-- Shape of every frame `send_records` emits: frame `k` is
`send_record (reverse (le-counter k) ++ ciphertext-of-chunk k)`. -/
theorem send_records_get (sealf : List Nat → List Nat → List Nat → List Nat)
    (f skey : List Nat) (frames : List (List Nat)) (hk : skey.length = KEYBYTES)
    (h : send_records sealf f skey = some frames) :
    frames.length = f.length / 4096 + 1
    ∧ ∀ k (hk2 : k < frames.length),
        frames.get ⟨k, hk2⟩ =
          send_record ((natToLEBytes NONCEBYTES k).reverse
            ++ sealf (fileChunk f k) ((natToLEBytes NONCEBYTES k).reverse) skey) := by
  obtain ⟨hlen, hget⟩ := optionTraverse_eq_some _ _ _ h
  rw [List.length_range] at hlen
  refine ⟨hlen, ?_⟩
  intro k hk2
  have hk3 : k < (List.range (f.length / 4096 + 1)).length := by
    simpa [List.length_range, hlen] using hk2
  have := hget k hk3 hk2
  rw [List.get_range, encrypt_record_counter sealf skey hk] at this
  simpa using this.symm

theorem frame_nonce_field (a b c : List Nat) (ha : a.length = 4)
    (hb : b.length = NONCEBYTES) :
    ((a ++ (b ++ c)).drop 4).take NONCEBYTES = b := by
  rw [← ha, List.drop_left, ← hb, List.take_left]

theorem send_records_total (sealf : List Nat → List Nat → List Nat → List Nat)
    (f skey : List Nat) (hk : skey.length = KEYBYTES) :
    ∃ frames, send_records sealf f skey = some frames := by
  apply optionTraverse_isSome
  intro k _
  rw [encrypt_record_counter sealf skey hk]
  rfl

/-- Claim C3, corrected: every wire record is the 4-byte big-endian length,
then the 24-byte nonce, then the ciphertext, and the first record's nonce is
all zeroes — but the nonce field on the wire is the *byte-reversal* of the
24-byte little-endian counter (i.e. the counter big-endian): it increments
by one per record in its big-endian byte representation, not its
little-endian one as the claim stated. -/
theorem C3_record_framing (sealf : List Nat → List Nat → List Nat → List Nat)
    (f skey : List Nat) (frames : List (List Nat)) (k : Nat)
    (hk : skey.length = KEYBYTES)
    (h : send_records sealf f skey = some frames)
    (hks : k < frames.length) :
    frames.length = f.length / 4096 + 1
    ∧ frames.get? k =
        some (send_record ((natToLEBytes NONCEBYTES k).reverse
          ++ sealf (fileChunk f k) ((natToLEBytes NONCEBYTES k).reverse) skey))
    ∧ (frames.get? k).map (fun fr => (fr.drop 4).take NONCEBYTES)
        = some ((natToLEBytes NONCEBYTES k).reverse)
    ∧ (natToLEBytes NONCEBYTES 0).reverse = List.replicate NONCEBYTES 0 := by
  obtain ⟨hlen, hget⟩ := send_records_get sealf f skey frames hk h
  have hsome : frames.get? k = some (frames.get ⟨k, hks⟩) := List.get?_eq_get hks
  have hfr := hget k hks
  refine ⟨hlen, by rw [hsome, hfr], ?_, by decide⟩
  rw [hsome, hfr]
  simp only [Option.map_some', send_record, List.append_assoc]
  rw [frame_nonce_field _ _ _ (by simp [natToBEBytes, natToLEBytes_length])
    (by simp [natToLEBytes_length])]

/-- Counterexample to claim C3 as stated: for a 4096-byte file the stream
has two records; the second record's wire nonce field is
`[0, …, 0, 1]` — the big-endian representation of 1 — and not the
little-endian representation `natToLEBytes 24 1 = [1, 0, …, 0]` the claim
describes. -/
theorem C3_nonce_not_little_endian :
    (send_records (fun m _ _ => m) (List.replicate 4096 0)
        (List.replicate 32 0)).map
        (fun frames => frames.map (fun fr => (fr.drop 4).take NONCEBYTES))
      = some [List.replicate 24 0, List.replicate 23 0 ++ [1]]
    ∧ (List.replicate 23 0 ++ [1] : List Nat) ≠ natToLEBytes 24 1 := by
  have hk : (List.replicate 32 (0 : Nat)).length = KEYBYTES := by decide
  obtain ⟨frames, hframes⟩ :=
    send_records_total (fun m _ _ => m) (List.replicate 4096 0)
      (List.replicate 32 0) hk
  obtain ⟨hlen, hget⟩ :=
    send_records_get (fun m _ _ => m) (List.replicate 4096 0)
      (List.replicate 32 0) frames hk hframes
  have hlen2 : frames.length = 2 := by
    rw [hlen, List.length_replicate]
  refine ⟨?_, by decide⟩
  rw [hframes, Option.map_some']
  rcases frames with _ | ⟨f0, frames⟩
  · simp at hlen2
  rcases frames with _ | ⟨f1, frames⟩
  · simp at hlen2
  rcases frames with _ | ⟨f2, frames⟩
  case cons.cons.cons => simp at hlen2
  have h00 : f0 = send_record ((natToLEBytes NONCEBYTES 0).reverse
      ++ fileChunk (List.replicate 4096 0) 0) := hget 0 (by simp)
  have h01 : f1 = send_record ((natToLEBytes NONCEBYTES 1).reverse
      ++ fileChunk (List.replicate 4096 0) 1) := hget 1 (by simp)
  have e0 : ∀ c : List Nat,
      ((send_record ((natToLEBytes NONCEBYTES 0).reverse ++ c)).drop 4).take
        NONCEBYTES = List.replicate 24 0 := by
    intro c
    simp only [send_record]
    rw [frame_nonce_field _ _ _
      (by simp only [natToBEBytes, List.length_reverse, natToLEBytes_length])
      (by simp only [List.length_reverse, natToLEBytes_length])]
    decide
  have e1 : ∀ c : List Nat,
      ((send_record ((natToLEBytes NONCEBYTES 1).reverse ++ c)).drop 4).take
        NONCEBYTES = List.replicate 23 0 ++ [1] := by
    intro c
    simp only [send_record]
    rw [frame_nonce_field _ _ _
      (by simp only [natToBEBytes, List.length_reverse, natToLEBytes_length])
      (by simp only [List.length_reverse, natToLEBytes_length])]
    decide
  simp only [List.map_cons, List.map_nil]
  rw [h00, h01, e0, e1]

theorem C3_record_framing_witness :
    ([[0, 0, 0, 25] ++ List.replicate 24 0 ++ [7]] : List (List Nat)).length
        = [7].length / 4096 + 1
    ∧ ([[0, 0, 0, 25] ++ List.replicate 24 0 ++ [7]] : List (List Nat)).get? 0 =
        some (send_record ((natToLEBytes NONCEBYTES 0).reverse
          ++ (fun m _ _ => m) (fileChunk [7] 0)
              ((natToLEBytes NONCEBYTES 0).reverse) (List.replicate 32 0)))
    ∧ (([[0, 0, 0, 25] ++ List.replicate 24 0 ++ [7]] : List (List Nat)).get? 0).map
          (fun fr => (fr.drop 4).take NONCEBYTES)
        = some ((natToLEBytes NONCEBYTES 0).reverse)
    ∧ (natToLEBytes NONCEBYTES 0).reverse = List.replicate NONCEBYTES 0 :=
  C3_record_framing (fun m _ _ => m) [7] (List.replicate 32 0)
    [[0, 0, 0, 25] ++ List.replicate 24 0 ++ [7]] 0 (by decide) (by decide)
    (by decide)

/-! ## Transit ack (claim C4)

`TransitAck` and its serde JSON round trip live in `src/core/transfer.rs`,
which is not among the sources under review; following the spec they are
modelled here directly.  SHA-256 is an external primitive and enters the
theorems as a parameter `H`. -/

/-- Modelled from the spec: `src/core/transfer.rs` `TransitAck`, the
message with fields `ack` (`"ok"` or `"error"`) and `sha256` (hex digest)
confirming the complete file hash (spec §3). -/
structure TransitAck where
  ack : String
  sha256 : String
deriving DecidableEq

/-- Modelled from the spec: the `transit_ack(ack, sha256)` constructor that
`make_transit_ack_msg` calls (io/blocking.rs 734). -/
def transit_ack (ack sha256 : String) : TransitAck :=
  ⟨ack, sha256⟩

/-- Modelled from the spec: serde JSON serialization of a `TransitAck`
(io/blocking.rs 734 `.serialize()`). -/
def TransitAck.serialize (t : TransitAck) : String :=
  "\x7b\"ack\": \"" ++ t.ack ++ "\", \"sha256\": \"" ++ t.sha256 ++ "\"\x7d"

/-- Strip an expected literal prefix, failing otherwise. -/
def dropPrefixChars (pre s : List Char) : Option (List Char) :=
  if s.take pre.length = pre then some (s.drop pre.length) else none

/-- Modelled from the spec: parser for the canonical serialization above,
inverse of `TransitAck.serialize` (io/blocking.rs 1121
`TransitAck::deserialize`; serde errors are `none`). -/
def deserializeChars (l : List Char) : Option TransitAck :=
  (dropPrefixChars ("\x7b\"ack\": \"".data) l).bind fun s1 =>
    (dropPrefixChars ("\", \"sha256\": \"".data)
        (s1.drop (s1.takeWhile (· != '"')).length)).bind fun s3 =>
      if s3.drop (s3.takeWhile (· != '"')).length = ("\"\x7d".data) then
        some ⟨⟨s1.takeWhile (· != '"')⟩, ⟨s3.takeWhile (· != '"')⟩⟩
      else none

/-- Modelled from the spec: `TransitAck::deserialize`. -/
def TransitAck.deserialize (str : String) : Option TransitAck :=
  deserializeChars str.data

/-- `io/blocking.rs` `make_transit_ack_msg` (lines 733–741): the ack
`transit_ack("ok", sha256)` serialized, then encrypted under the all-zero
nonce. -/
def make_transit_ack_msg (sealf : List Nat → List Nat → List Nat → List Nat)
    (sha256 : String) (key : List Nat) : Option (List Nat) :=
  encrypt_record sealf (strToBytes ((transit_ack "ok" sha256).serialize))
    (List.replicate NONCEBYTES 0) key

/-- `io/blocking.rs` `tcp_file_send`, ack-verification part (lines
1117–1124): decrypt the received record with the receiver record key,
deserialize, and `ensure!` that the `sha256` field equals the hex digest of
the plaintext that was sent. -/
def tcp_file_send_ack_check
    (openf : List Nat → List Nat → List Nat → Option (List Nat))
    (enc_transit_ack rkey checksum : List Nat) : Except String Unit :=
  match decrypt_record openf enc_transit_ack rkey with
  | none => Except.error "decryption failed"
  | some ta =>
    match bytesToStr ta with
    | none => Except.error "transit ack is not utf-8"
    | some str =>
      match TransitAck.deserialize str with
      | none => Except.error "could not deserialize transit ack"
      | some msg =>
        if msg.sha256 = hexEncode checksum then Except.ok ()
        else Except.error "receive checksum error"

theorem dropPrefixChars_append (pre rest : List Char) :
    dropPrefixChars pre (pre ++ rest) = some rest := by
  simp [dropPrefixChars, List.take_left, List.drop_left]

theorem takeWhile_noQuote : ∀ l : List Char, (∀ c ∈ l, (c != '"') = true) →
    ∀ r : List Char, (l ++ '"' :: r).takeWhile (· != '"') = l := by
  intro l
  induction l with
  | nil => intro _ r; simp [List.takeWhile]
  | cons a t ih =>
    intro h r
    have ha := h a (List.mem_cons_self a t)
    simp only [List.cons_append, List.takeWhile_cons, ha, if_true]
    rw [ih (fun c hc => h c (List.mem_cons_of_mem a hc)) r]

theorem deserializeChars_parts (a s : List Char)
    (ha : ∀ c ∈ a, (c != '"') = true) (hs : ∀ c ∈ s, (c != '"') = true) :
    deserializeChars (("\x7b\"ack\": \"".data)
        ++ (a ++ (("\", \"sha256\": \"".data) ++ (s ++ ("\"\x7d".data)))))
      = some ⟨⟨a⟩, ⟨s⟩⟩ := by
  have hsplit : a ++ (("\", \"sha256\": \"".data) ++ (s ++ ("\"\x7d".data)))
      = a ++ '"' :: ((", \"sha256\": \"".data) ++ (s ++ ("\"\x7d".data))) := rfl
  have hfold : ('"' :: ((", \"sha256\": \"".data) ++ (s ++ ("\"\x7d".data))))
      = ("\", \"sha256\": \"".data) ++ (s ++ ("\"\x7d".data)) := rfl
  have hsplit2 : s ++ ("\"\x7d".data) = s ++ '"' :: ("\x7d".data) := rfl
  simp only [deserializeChars]
  rw [dropPrefixChars_append, Option.some_bind]
  rw [hsplit, takeWhile_noQuote a ha, List.drop_left]
  rw [hfold, dropPrefixChars_append, Option.some_bind]
  simp only [hsplit2, takeWhile_noQuote s hs, List.drop_left]
  simp only [if_true]

theorem serialize_data (t : TransitAck) :
    (TransitAck.serialize t).data
      = ("\x7b\"ack\": \"".data) ++ (t.ack.data ++ (("\", \"sha256\": \"".data)
          ++ (t.sha256.data ++ ("\"\x7d".data)))) := by
  simp [TransitAck.serialize, String.data_append, List.append_assoc]

theorem TransitAck.deserialize_serialize (t : TransitAck)
    (ha : ∀ c ∈ t.ack.data, (c != '"') = true)
    (hs : ∀ c ∈ t.sha256.data, (c != '"') = true) :
    TransitAck.deserialize (TransitAck.serialize t) = some t := by
  show deserializeChars (TransitAck.serialize t).data = some t
  rw [serialize_data, deserializeChars_parts t.ack.data t.sha256.data ha hs]

theorem hexDigit_ascii :
    ∀ n, n < 16 → ((hexDigit n != '"') = true ∧ (hexDigit n).toNat < 128) := by
  decide

theorem hexEncode_mem (bs : List Nat) :
    ∀ c ∈ (hexEncode bs).data, (c != '"') = true ∧ c.toNat < 128 := by
  intro c hc
  have hc' : c ∈ (bs.map hexEncodeByte).flatten := hc
  rw [List.mem_flatten] at hc'
  obtain ⟨l, hl, hcl⟩ := hc'
  rw [List.mem_map] at hl
  obtain ⟨b, _, rfl⟩ := hl
  have h16 : ∀ m : Nat, m % 16 < 16 := fun m => Nat.mod_lt _ (by norm_num)
  simp only [hexEncodeByte, List.mem_cons, List.not_mem_nil, or_false] at hcl
  rcases hcl with rfl | rfl
  · exact hexDigit_ascii _ (h16 _)
  · exact hexDigit_ascii _ (h16 _)

theorem ack_ok_hex_ascii (hsh : List Nat) :
    ∀ c ∈ ((transit_ack "ok" (hexEncode hsh)).serialize).data, c.toNat < 128 := by
  intro c hc
  rw [serialize_data] at hc
  simp only [List.mem_append, transit_ack] at hc
  rcases hc with h | h | h | h | h
  · exact (by decide : ∀ c ∈ ("\x7b\"ack\": \"".data), c.toNat < 128) c h
  · exact (by decide : ∀ c ∈ ("ok".data), c.toNat < 128) c h
  · exact (by decide : ∀ c ∈ ("\", \"sha256\": \"".data), c.toNat < 128) c h
  · exact (hexEncode_mem hsh c h).2
  · exact (by decide : ∀ c ∈ ("\"\x7d".data), c.toNat < 128) c h

theorem bytesToStr_strToBytes (s : String)
    (h : ∀ c ∈ s.data, c.toNat < 128) :
    bytesToStr (strToBytes s) = some s := by
  obtain ⟨d⟩ := s
  simp only [strToBytes, bytesToStr]
  have hall : ((d.map Char.toNat).all fun x => decide (x < 128)) = true := by
    rw [List.all_eq_true]
    intro x hx
    rw [List.mem_map] at hx
    obtain ⟨c, hc, rfl⟩ := hx
    exact decide_eq_true (h c hc)
  rw [if_pos hall]
  have hmap : (d.map Char.toNat).map Char.ofNat = d := by
    rw [List.map_map]
    have : ∀ c ∈ d, (Char.ofNat ∘ Char.toNat) c = id c := fun c _ =>
      Char.ofNat_toNat c
    rw [List.map_congr_left this, List.map_id]
  rw [hmap]

/-- Claim C4: the receiver's ack record is encrypted with the receiver
record-key under the all-zero wire nonce and contains
`transit_ack("ok", hex-sha256-of-what-it-wrote)`; the sender decrypts it
and returns the `receive checksum error` exactly when that sha256 field
differs from the hex digest of the plaintext the sender read and sent.
`H` is SHA-256, `w` the bytes the receiver wrote, `f` the bytes the sender
sent. -/
theorem C4_transit_ack_checksum
    (sealf : List Nat → List Nat → List Nat → List Nat)
    (openf : List Nat → List Nat → List Nat → Option (List Nat))
    (H : List Nat → List Nat)
    (hinv : ∀ m n k, openf (sealf m n k) n k = some m)
    (rkey : List Nat) (hk : rkey.length = KEYBYTES)
    (w f a : List Nat)
    (ha : make_transit_ack_msg sealf (hexEncode (H w)) rkey = some a) :
    a.take NONCEBYTES = List.replicate NONCEBYTES 0
    ∧ decrypt_record openf a rkey
        = some (strToBytes ((transit_ack "ok" (hexEncode (H w))).serialize))
    ∧ tcp_file_send_ack_check openf a rkey (H f)
        = (if hexEncode (H w) = hexEncode (H f) then Except.ok ()
           else Except.error "receive checksum error") := by
  have hzl : (List.replicate NONCEBYTES (0 : Nat)).length = NONCEBYTES := by
    simp
  have hdec := decrypt_record_encrypt_record sealf openf hinv
    (strToBytes ((transit_ack "ok" (hexEncode (H w))).serialize))
    (List.replicate NONCEBYTES 0) rkey hzl hk a ha
  have ha' : a = List.replicate NONCEBYTES 0
      ++ sealf (strToBytes ((transit_ack "ok" (hexEncode (H w))).serialize))
          (List.replicate NONCEBYTES 0) rkey := by
    have h2 := ha
    simp only [make_transit_ack_msg, encrypt_record, hk, if_pos,
      List.reverse_replicate, hzl, if_true] at h2
    exact (Option.some.inj h2).symm
  refine ⟨?_, hdec, ?_⟩
  · rw [ha', List.take_left' hzl]
  · have hack : ∀ c ∈ ("ok".data), (c != '"') = true := by decide
    have hdeser : TransitAck.deserialize
        (TransitAck.serialize (transit_ack "ok" (hexEncode (H w))))
        = some (transit_ack "ok" (hexEncode (H w))) :=
      TransitAck.deserialize_serialize (transit_ack "ok" (hexEncode (H w)))
        hack (fun c hc => (hexEncode_mem (H w) c hc).1)
    have hstr : bytesToStr (strToBytes
        (TransitAck.serialize (transit_ack "ok" (hexEncode (H w)))))
        = some (TransitAck.serialize (transit_ack "ok" (hexEncode (H w)))) :=
      bytesToStr_strToBytes _ (ack_ok_hex_ascii (H w))
    simp only [tcp_file_send_ack_check, hdec, hstr, hdeser]
    rfl

theorem C4_transit_ack_checksum_witness :
    (List.replicate 24 0
        ++ strToBytes ((transit_ack "ok" (hexEncode [1])).serialize)).take
        NONCEBYTES = List.replicate NONCEBYTES 0
    ∧ decrypt_record (fun c _ _ => some c)
        (List.replicate 24 0
          ++ strToBytes ((transit_ack "ok" (hexEncode [1])).serialize))
        (List.replicate 32 0)
        = some (strToBytes ((transit_ack "ok" (hexEncode [1])).serialize))
    ∧ tcp_file_send_ack_check (fun c _ _ => some c)
        (List.replicate 24 0
          ++ strToBytes ((transit_ack "ok" (hexEncode [1])).serialize))
        (List.replicate 32 0) [1]
        = (if hexEncode [1] = hexEncode [1] then Except.ok ()
           else Except.error "receive checksum error") :=
  C4_transit_ack_checksum (fun m _ _ => m) (fun c _ _ => some c)
    (fun l => l) (fun _ _ _ => rfl) (List.replicate 32 0) (by decide)
    [1] [1] _ (by decide)

/-! ## Record streaming, receiver side (claims C10 and C4's input) -/

/-- `io/blocking.rs` `receive_record` (lines 804–826) over a byte stream:
read a 4-byte big-endian length, then exactly that many bytes (the
1024-byte staging buffer plus final `truncate` deliver precisely `length`
stream bytes in order); a short read (`read_exact` failing at end of
stream) is `none`.  Returns the packet and the remaining stream. -/
def receive_record (stream : List Nat) : Option (List Nat × List Nat) :=
  if 4 ≤ stream.length then
    let len := be32ToNat (stream.take 4)
    let rest := stream.drop 4
    if len ≤ rest.length then some (rest.take len, rest.drop len)
    else none
  else none

/-- Outcome of the `receive_records` loop.  `underflow` is the
`remaining_size -= plaintext.len()` subtraction with
`plaintext.len() > remaining_size` (io/blocking.rs 851): a `usize`
underflow — a panic in debug builds, a wrap to a huge remaining size in
release builds — rather than a clean `Err`. -/
inductive RxResult where
  | success (written : List Nat)
  | readErr
  | decryptErr
  | underflow
deriving DecidableEq

/-- The `while remaining_size > 0` loop of `receive_records`
(io/blocking.rs 828–857), fuel-indexed.  Each iteration receives one
record, decrypts it, appends the plaintext to the output file (`success`
carries the bytes written) and subtracts the plaintext length from the
remaining size with no bound check.  Each successful iteration consumes at
least 4 stream bytes, so fuel `stream.length + 1` (see `receive_records`)
never runs out; the fuel-0 branch mirrors the read-failure outcome. -/
def receive_records_loop
    (openf : List Nat → List Nat → List Nat → Option (List Nat))
    (skey : List Nat) : Nat → List Nat → Nat → RxResult
  | 0, _, _ => RxResult.readErr
  | fuel + 1, stream, remaining =>
    if remaining = 0 then RxResult.success []
    else
      match receive_record stream with
      | none => RxResult.readErr
      | some (packet, rest) =>
        match decrypt_record openf packet skey with
        | none => RxResult.decryptErr
        | some pt =>
          if remaining < pt.length then RxResult.underflow
          else
            match receive_records_loop openf skey fuel rest
                (remaining - pt.length) with
            | RxResult.success w => RxResult.success (pt ++ w)
            | r => r

/-- `io/blocking.rs` `receive_records` (lines 828–857); the written file is
the `success` payload, and the rolling SHA-256 of it is what the caller
hex-encodes into the transit ack. -/
def receive_records
    (openf : List Nat → List Nat → List Nat → Option (List Nat))
    (skey stream : List Nat) (filesize : Nat) : RxResult :=
  receive_records_loop openf skey (stream.length + 1) stream filesize

theorem receive_records_loop_success
    (openf : List Nat → List Nat → List Nat → Option (List Nat))
    (skey : List Nat) :
    ∀ fuel stream n w,
      receive_records_loop openf skey fuel stream n = RxResult.success w →
      w.length = n := by
  intro fuel
  induction fuel with
  | zero =>
    intro stream n w h
    simp [receive_records_loop] at h
  | succ fuel ih =>
    intro stream n w h
    by_cases hn : n = 0
    · subst hn
      simp only [receive_records_loop, if_pos rfl] at h
      cases h
      rfl
    · simp only [receive_records_loop, if_neg hn] at h
      cases hrr : receive_record stream with
      | none =>
        simp only [hrr] at h
        exact RxResult.noConfusion h
      | some pr =>
        obtain ⟨packet, rest⟩ := pr
        simp only [hrr] at h
        cases hd : decrypt_record openf packet skey with
        | none =>
          simp only [hd] at h
          exact RxResult.noConfusion h
        | some pt =>
          simp only [hd] at h
          by_cases hlt : n < pt.length
          · rw [if_pos hlt] at h
            exact RxResult.noConfusion h
          · rw [if_neg hlt] at h
            cases hrec : receive_records_loop openf skey fuel rest
                (n - pt.length) with
            | success w2 =>
              simp only [hrec] at h
              cases h
              have hw2 := ih rest (n - pt.length) w2 hrec
              rw [List.length_append, hw2]
              omega
            | readErr => simp only [hrec] at h; exact RxResult.noConfusion h
            | decryptErr => simp only [hrec] at h; exact RxResult.noConfusion h
            | underflow => simp only [hrec] at h; exact RxResult.noConfusion h

/-- Claim C10: `receive_records` tracks the bytes still expected as an
unsigned counter decremented by each plaintext's length with no bound
check: it succeeds only when the accumulated plaintext lengths reach the
declared filesize exactly (the bytes written equal the filesize), and a
record whose plaintext exceeds the bytes still expected drives the
subtraction into `usize` underflow instead of a clean error. -/
theorem C10_receive_records_size_tracking
    (openf : List Nat → List Nat → List Nat → Option (List Nat))
    (skey stream : List Nat) (n : Nat) (w : List Nat)
    (h1 : receive_records openf skey stream n = RxResult.success w)
    (stream2 : List Nat) (n2 : Nat) (packet rest pt : List Nat)
    (h2 : receive_record stream2 = some (packet, rest))
    (h3 : decrypt_record openf packet skey = some pt)
    (h4 : 0 < n2) (h5 : n2 < pt.length) :
    w.length = n
    ∧ receive_records openf skey stream2 n2 = RxResult.underflow := by
  constructor
  · exact receive_records_loop_success openf skey _ stream n w h1
  · simp only [receive_records, receive_records_loop,
      if_neg (Nat.pos_iff_ne_zero.mp h4), h2, h3, if_pos h5]

theorem C10_receive_records_size_tracking_witness :
    ([5, 6] : List Nat).length = 2
    ∧ receive_records (fun c _ _ => some c) (List.replicate 32 0)
        ([0, 0, 0, 26] ++ List.replicate 24 0 ++ [5, 6]) 1
        = RxResult.underflow :=
  C10_receive_records_size_tracking (fun c _ _ => some c)
    (List.replicate 32 0) ([0, 0, 0, 26] ++ List.replicate 24 0 ++ [5, 6])
    2 [5, 6] (by decide)
    ([0, 0, 0, 26] ++ List.replicate 24 0 ++ [5, 6]) 1
    (List.replicate 24 0 ++ [5, 6]) [] [5, 6]
    (by decide) (by decide) (by decide) (by decide)

/-! ## Timer bookkeeping in the I/O glue (claim C5)

Timer and WebSocket handles are modelled as naturals, the glue's
`HashSet<TimerHandle>` / `HashMap<WSHandle, _>` as finite sets of handles.
The engine side (rendezvous machine) is not among the sources under review,
so its notion of in-flight timers is modelled from the spec. -/

/-- `core/api.rs` `IOAction` as dispatched by the glue
(io/blocking.rs 249–273).  The timer duration (an `f64` of seconds, used
only to sleep) is carried as milliseconds. -/
inductive IOActionM where
  | StartTimer (h : Nat) (durMs : Nat)
  | CancelTimer (h : Nat)
  | WebSocketOpen (h : Nat) (url : String)
  | WebSocketSendMessage (h : Nat) (msg : String)
  | WebSocketClose (h : Nat)
deriving DecidableEq

/-- The handle-tracking state of `CoreWrapper` (io/blocking.rs 105–121):
the `timers` set and the domain of the `websockets` map. -/
structure GlueState where
  timers : Finset Nat
  websockets : Finset Nat
deriving DecidableEq

/-- `CoreWrapper` at construction (io/blocking.rs 326–339): no timers, no
websockets. -/
def glueInit : GlueState :=
  ⟨∅, ∅⟩

/-- `CoreWrapper::process_io_action` (io/blocking.rs 249–273) restricted to
its effect on the tracked handle sets: `StartTimer` inserts the handle (and
spawns a sleeper), `CancelTimer` removes it, `WebSocketOpen`/`Close`
maintain the websocket map. -/
def process_io_action (st : GlueState) (a : IOActionM) : GlueState :=
  match a with
  | .StartTimer h _ => { st with timers := insert h st.timers }
  | .CancelTimer h => { st with timers := st.timers.erase h }
  | .WebSocketOpen h _ => { st with websockets := insert h st.websockets }
  | .WebSocketSendMessage _ _ => st
  | .WebSocketClose h => { st with websockets := st.websockets.erase h }

/-- The inbound messages of `CoreWrapper::run` (io/blocking.rs 200–227). -/
inductive ToCoreM where
  | API (e : Nat)
  | IOEvent (e : Nat)
  | TimerExpired (h : Nat)
  | WebSocketConnectionMade (h : Nat)
  | WebSocketMessageReceived (h : Nat) (msg : String)
  | WebSocketConnectionLost (h : Nat)
deriving DecidableEq

/-- The dispatch decision of `CoreWrapper::run` (io/blocking.rs 203–222):
which message is forwarded into the core (`do_api`/`do_io`); a
`TimerExpired` whose handle is not in `timers` yields `vec![]` — it is
dropped without touching the core. -/
def run_dispatch (st : GlueState) (m : ToCoreM) : Option ToCoreM :=
  match m with
  | .TimerExpired h => if h ∈ st.timers then some (.TimerExpired h) else none
  | m => some m

/-- Modelled from the spec: the engine's set of in-flight timers, of which
its `StartTimer`/`CancelTimer` actions are the single source of truth
(spec §3): the handles started and not since cancelled along a run. -/
def engineTimers (as : List IOActionM) : Finset Nat :=
  as.foldl
    (fun s a =>
      match a with
      | .StartTimer h _ => insert h s
      | .CancelTimer h => s.erase h
      | _ => s) ∅

theorem glue_timers_foldl (as : List IOActionM) :
    ∀ (t w : Finset Nat),
      (as.foldl process_io_action ⟨t, w⟩).timers =
        as.foldl
          (fun s a =>
            match a with
            | IOActionM.StartTimer h _ => insert h s
            | IOActionM.CancelTimer h => s.erase h
            | _ => s) t := by
  induction as with
  | nil => intro t w; rfl
  | cons a rest ih =>
    intro t w
    cases a with
    | StartTimer h d => simpa [process_io_action] using ih (insert h t) w
    | CancelTimer h => simpa [process_io_action] using ih (t.erase h) w
    | WebSocketOpen h url => simpa [process_io_action] using ih t (insert h w)
    | WebSocketSendMessage h msg => simpa [process_io_action] using ih t w
    | WebSocketClose h => simpa [process_io_action] using ih t (w.erase h)

/-- Claim C5: after any sequence of engine I/O actions the glue's tracked
timer set equals the engine's in-flight timer set (`StartTimer` inserts,
`CancelTimer` erases), and a `TimerExpired` arrival whose handle is not in
the set is discarded without being forwarded to the engine, while one whose
handle is tracked is forwarded. -/
theorem C5_timer_set_agreement (as : List IOActionM) (st1 : GlueState)
    (h1 : Nat) (hnot : h1 ∉ st1.timers) (st2 : GlueState) (h2 : Nat)
    (hmem : h2 ∈ st2.timers) :
    (as.foldl process_io_action glueInit).timers = engineTimers as
    ∧ run_dispatch st1 (.TimerExpired h1) = none
    ∧ run_dispatch st2 (.TimerExpired h2) = some (.TimerExpired h2) := by
  refine ⟨glue_timers_foldl as ∅ ∅, ?_, ?_⟩
  · simp [run_dispatch, hnot]
  · simp [run_dispatch, hmem]

theorem C5_timer_set_agreement_witness :
    (([IOActionM.StartTimer 1 5000, IOActionM.StartTimer 2 5000,
        IOActionM.CancelTimer 1,
        IOActionM.WebSocketOpen 7 "ws://relay.magic-wormhole.io:4000/v1"]).foldl
        process_io_action glueInit).timers
      = engineTimers [IOActionM.StartTimer 1 5000, IOActionM.StartTimer 2 5000,
          IOActionM.CancelTimer 1,
          IOActionM.WebSocketOpen 7 "ws://relay.magic-wormhole.io:4000/v1"]
    ∧ run_dispatch glueInit (.TimerExpired 3) = none
    ∧ run_dispatch ⟨{2}, ∅⟩ (.TimerExpired 2) = some (.TimerExpired 2) :=
  C5_timer_set_agreement
    [IOActionM.StartTimer 1 5000, IOActionM.StartTimer 2 5000,
      IOActionM.CancelTimer 1,
      IOActionM.WebSocketOpen 7 "ws://relay.magic-wormhole.io:4000/v1"]
    glueInit 3 (by decide) ⟨{2}, ∅⟩ 2 (by decide)

/-! ## Engine driver loop (claim C7)

`core.rs` `WormholeCore::_execute` (lines 144–186) owns a FIFO queue of
events.  The thirteen sub-machines live in files not under review, so the
combined machine state is an abstract type `σ` and the dispatch
`match e with | Allocator e => .. | Boss e => ..` is a parameter
`δ : machine-id → event → σ → σ × output-events`; likewise
`boss.process_api` and `rendezvous.process_io` are parameters of
`do_api`/`do_io`.  The loop is fuel-indexed (`none` = fuel ran out); the
Rust loop's termination depends on the machines and is not claimed. -/

/-- `core/events.rs` `Event`: an API action, an I/O action, a sub-machine
event (machine id, event payload), or a timing event. -/
inductive EventM where
  | api (a : Nat)
  | ioAct (a : Nat)
  | machine (m : Nat) (e : Nat)
  | timing (t : Nat)
deriving DecidableEq

/-- The state `_execute` threads: the sub-machine ensemble `ms`, the
`self.timing` log (core.rs 180), and the log of I/O actions handed to
`self.io.process` (core.rs 158) in dispatch order. -/
structure CoreState (σ : Type) where
  ms : σ
  ioLog : List Nat
  timingLog : List Nat
deriving DecidableEq

/-- The timing events among a transition's outputs, in order (core.rs
175–183 sends these to `self.timing.add`). -/
def timingPayloads (es : List EventM) : List Nat :=
  es.filterMap fun e =>
    match e with
    | .timing t => some t
    | _ => none

/-- The non-timing events among a transition's outputs, in order (core.rs
175–183 pushes these on the back of the queue). -/
def nonTimingEvents (es : List EventM) : List EventM :=
  es.filter fun e =>
    match e with
    | .timing _ => false
    | _ => true

/-- The `while let Some(e) = event_queue.pop_front()` loop of `_execute`
(core.rs 150–184): pop the front event; an API action is appended to the
returned `action_queue` (`acc`), an I/O action is dispatched to the glue, a
top-level timing event yields nothing (core.rs 172), and a sub-machine
event is processed by `δ`, its timing outputs appended to the timing log
and its other outputs pushed on the back of the queue. -/
def execLoop {σ : Type} (δ : Nat → Nat → σ → σ × List EventM) :
    Nat → CoreState σ → List EventM → List Nat →
    Option (List Nat × CoreState σ)
  | 0, _, _, _ => none
  | fuel + 1, st, q, acc =>
    match q with
    | [] => some (acc, st)
    | e :: rest =>
      match e with
      | .api a => execLoop δ fuel st rest (acc ++ [a])
      | .ioAct a =>
        execLoop δ fuel { st with ioLog := st.ioLog ++ [a] } rest acc
      | .timing _ => execLoop δ fuel st rest acc
      | .machine m ev =>
        execLoop δ fuel
          { st with
            ms := (δ m ev st.ms).1,
            timingLog := st.timingLog ++ timingPayloads (δ m ev st.ms).2 }
          (rest ++ nonTimingEvents (δ m ev st.ms).2) acc

/-- `core.rs` `WormholeCore::_execute` (lines 144–186): run the queue to
exhaustion starting from the seed events, with an empty action queue. -/
def _execute {σ : Type} (δ : Nat → Nat → σ → σ × List EventM) (fuel : Nat)
    (st : CoreState σ) (events : List EventM) :
    Option (List Nat × CoreState σ) :=
  execLoop δ fuel st events []

/-- `core.rs` `WormholeCore::do_api` (lines 101–107): feed the API event to
the boss machine (`boss : event → σ → σ × events`), then `_execute` the
resulting events. -/
def do_api {σ : Type} (δ : Nat → Nat → σ → σ × List EventM)
    (boss : Nat → σ → σ × List EventM) (fuel : Nat) (st : CoreState σ)
    (e : Nat) : Option (List Nat × CoreState σ) :=
  _execute δ fuel { st with ms := (boss e st.ms).1 } (boss e st.ms).2

/-- `core.rs` `WormholeCore::do_io` (lines 109–114): feed the I/O event to
the rendezvous machine, then `_execute` the resulting events. -/
def do_io_event {σ : Type} (δ : Nat → Nat → σ → σ × List EventM)
    (rdv : Nat → σ → σ × List EventM) (fuel : Nat) (st : CoreState σ)
    (e : Nat) : Option (List Nat × CoreState σ) :=
  _execute δ fuel { st with ms := (rdv e st.ms).1 } (rdv e st.ms).2

theorem execLoop_mono {σ : Type} (δ : Nat → Nat → σ → σ × List EventM) :
    ∀ fuel (st : CoreState σ) q acc out st',
      execLoop δ fuel st q acc = some (out, st') →
      acc <+: out ∧ st.ioLog <+: st'.ioLog
        ∧ st.timingLog <+: st'.timingLog := by
  intro fuel
  induction fuel with
  | zero =>
    intro st q acc out st' h
    simp [execLoop] at h
  | succ fuel ih =>
    intro st q acc out st' h
    cases q with
    | nil =>
      simp only [execLoop] at h
      cases h
      exact ⟨List.prefix_refl acc, List.prefix_refl _, List.prefix_refl _⟩
    | cons e rest =>
      cases e with
      | api a =>
        simp only [execLoop] at h
        obtain ⟨h1, h2, h3⟩ := ih _ _ _ _ _ h
        exact ⟨(List.prefix_append acc [a]).trans h1, h2, h3⟩
      | ioAct a =>
        simp only [execLoop] at h
        obtain ⟨h1, h2, h3⟩ := ih _ _ _ _ _ h
        exact ⟨h1, (List.prefix_append st.ioLog [a]).trans h2, h3⟩
      | timing t =>
        simp only [execLoop] at h
        exact ih _ _ _ _ _ h
      | machine m ev =>
        simp only [execLoop] at h
        obtain ⟨h1, h2, h3⟩ := ih _ _ _ _ _ h
        exact ⟨h1, h2, (List.prefix_append st.timingLog _).trans h3⟩

theorem timing_not_mem_nonTimingEvents (es : List EventM) (t : Nat) :
    EventM.timing t ∉ nonTimingEvents es := by
  intro hmem
  rw [nonTimingEvents, List.mem_filter] at hmem
  simpa using hmem.2

/-- Claim C7: every `do_api`/`do_io` call runs `_execute`, which processes
the event queue FIFO to exhaustion before returning: the front event is
popped (i–v), API actions accumulate in order into the returned list (ii,
and monotonically, vi), I/O actions are dispatched to the glue in order
(iii, vi), sub-machine outputs are enqueued at the back with their timing
events diverted to the timing log (iv), timing events are never re-enqueued
(vii), and a result is returned exactly from an empty queue (i). -/
theorem C7_driver_loop {σ : Type} (δ : Nat → Nat → σ → σ × List EventM)
    (boss rdv : Nat → σ → σ × List EventM) (f : Nat) (st : CoreState σ)
    (q : List EventM) (acc : List Nat) (a m ev t e : Nat)
    (f2 : Nat) (st2 : CoreState σ) (q2 : List EventM) (acc2 out : List Nat)
    (st2' : CoreState σ)
    (hsome : execLoop δ f2 st2 q2 acc2 = some (out, st2'))
    (es : List EventM) (t2 : Nat) :
    execLoop δ (f + 1) st [] acc = some (acc, st)
    ∧ execLoop δ (f + 1) st (.api a :: q) acc = execLoop δ f st q (acc ++ [a])
    ∧ execLoop δ (f + 1) st (.ioAct a :: q) acc
        = execLoop δ f { st with ioLog := st.ioLog ++ [a] } q acc
    ∧ execLoop δ (f + 1) st (.machine m ev :: q) acc
        = execLoop δ f
            { st with
              ms := (δ m ev st.ms).1,
              timingLog := st.timingLog ++ timingPayloads (δ m ev st.ms).2 }
            (q ++ nonTimingEvents (δ m ev st.ms).2) acc
    ∧ execLoop δ (f + 1) st (.timing t :: q) acc = execLoop δ f st q acc
    ∧ (acc2 <+: out ∧ st2.ioLog <+: st2'.ioLog
        ∧ st2.timingLog <+: st2'.timingLog)
    ∧ EventM.timing t2 ∉ nonTimingEvents es
    ∧ do_api δ boss f st e
        = _execute δ f { st with ms := (boss e st.ms).1 } (boss e st.ms).2
    ∧ do_io_event δ rdv f st e
        = _execute δ f { st with ms := (rdv e st.ms).1 } (rdv e st.ms).2 :=
  ⟨rfl, rfl, rfl, rfl, rfl, execLoop_mono δ f2 st2 q2 acc2 out st2' hsome,
    timing_not_mem_nonTimingEvents es t2, rfl, rfl⟩

theorem C7_driver_loop_witness :
    (execLoop (fun _ _ (s : Nat) => (s + 1, [EventM.api 5, EventM.timing 9,
        EventM.ioAct 2])) 5 ⟨0, [], []⟩ [EventM.machine 0 0] []
      = some ([5], ⟨1, [2], [9]⟩))
    ∧ (([] : List Nat) <+: [5] ∧ ([] : List Nat) <+: [2]
        ∧ ([] : List Nat) <+: [9]) :=
  ⟨rfl,
    (C7_driver_loop (fun _ _ (s : Nat) => (s + 1, [EventM.api 5,
        EventM.timing 9, EventM.ioAct 2]))
      (fun _ s => (s, [])) (fun _ s => (s, [])) 1 ⟨0, [], []⟩ [] [] 0 0 0 0 0
      5 ⟨0, [], []⟩ [EventM.machine 0 0] [] [5] ⟨1, [2], [9]⟩ rfl [] 0).2.2.2.2.2.1⟩

/-! ## Embedder one-shot getters (claim C8)

The `Wormhole` struct (io/blocking.rs 293–309) caches each one-shot value
next to the mpsc receiver it came from.  A receiver is modelled as the list
of values the core thread will deliver, in order; `recv()` pops the head
and `none` models a blocked/poisoned `recv().unwrap()`.  serde `Value`s
(welcome, versions) are modelled as strings. -/

/-- The cache and channel state of `Wormhole` (io/blocking.rs 293–309). -/
structure WormholeState where
  code : Option String
  key : Option (List Nat)
  welcome : Option String
  versions : Option String
  verifier : Option (List Nat)
  rx_code : List String
  rx_key : List (List Nat)
  rx_welcome : List String
  rx_versions : List String
  rx_verifier : List (List Nat)
deriving DecidableEq

/-- `Wormhole::get_code` (io/blocking.rs 396–405): return the cached code,
or receive one, cache it, and return it. -/
def get_code (w : WormholeState) : Option (String × WormholeState) :=
  match w.code with
  | some code => some (code, w)
  | none =>
    match w.rx_code with
    | [] => none
    | code :: rest => some (code, { w with code := some code, rx_code := rest })

/-- `Wormhole::get_key` (io/blocking.rs 407–416). -/
def get_key (w : WormholeState) : Option (List Nat × WormholeState) :=
  match w.key with
  | some key => some (key, w)
  | none =>
    match w.rx_key with
    | [] => none
    | key :: rest => some (key, { w with key := some key, rx_key := rest })

/-- `Wormhole::get_verifier` (io/blocking.rs 430–439). -/
def get_verifier (w : WormholeState) : Option (List Nat × WormholeState) :=
  match w.verifier with
  | some verifier => some (verifier, w)
  | none =>
    match w.rx_verifier with
    | [] => none
    | verifier :: rest =>
      some (verifier, { w with verifier := some verifier, rx_verifier := rest })

/-- `Wormhole::get_versions` (io/blocking.rs 441–450). -/
def get_versions (w : WormholeState) : Option (String × WormholeState) :=
  match w.versions with
  | some versions => some (versions, w)
  | none =>
    match w.rx_versions with
    | [] => none
    | versions :: rest =>
      some (versions, { w with versions := some versions, rx_versions := rest })

/-- `Wormhole::get_welcome` (io/blocking.rs 452–461). -/
def get_welcome (w : WormholeState) : Option (String × WormholeState) :=
  match w.welcome with
  | some welcome => some (welcome, w)
  | none =>
    match w.rx_welcome with
    | [] => none
    | welcome :: rest =>
      some (welcome, { w with welcome := some welcome, rx_welcome := rest })

/-- Claim C8: once a one-shot getter has returned a value, every subsequent
call returns the same value from the cache and leaves the state (in
particular every channel) untouched — for all five of `get_code`,
`get_key`, `get_verifier`, `get_versions`, `get_welcome`. -/
theorem C8_one_shot_getters_idempotent
    (w1 : WormholeState) (v1 : String) (w1' : WormholeState)
    (h1 : get_code w1 = some (v1, w1'))
    (w2 : WormholeState) (v2 : List Nat) (w2' : WormholeState)
    (h2 : get_key w2 = some (v2, w2'))
    (w3 : WormholeState) (v3 : List Nat) (w3' : WormholeState)
    (h3 : get_verifier w3 = some (v3, w3'))
    (w4 : WormholeState) (v4 : String) (w4' : WormholeState)
    (h4 : get_versions w4 = some (v4, w4'))
    (w5 : WormholeState) (v5 : String) (w5' : WormholeState)
    (h5 : get_welcome w5 = some (v5, w5')) :
    get_code w1' = some (v1, w1')
    ∧ get_key w2' = some (v2, w2')
    ∧ get_verifier w3' = some (v3, w3')
    ∧ get_versions w4' = some (v4, w4')
    ∧ get_welcome w5' = some (v5, w5') := by
  refine ⟨?_, ?_, ?_, ?_, ?_⟩
  · cases hc : w1.code with
    | some c =>
      simp only [get_code, hc] at h1
      cases h1
      simp [get_code, hc]
    | none =>
      cases hr : w1.rx_code with
      | nil =>
        simp only [get_code, hc, hr] at h1
        exact Option.noConfusion h1
      | cons c rest =>
        simp only [get_code, hc, hr] at h1
        cases h1
        simp [get_code]
  · cases hc : w2.key with
    | some c =>
      simp only [get_key, hc] at h2
      cases h2
      simp [get_key, hc]
    | none =>
      cases hr : w2.rx_key with
      | nil =>
        simp only [get_key, hc, hr] at h2
        exact Option.noConfusion h2
      | cons c rest =>
        simp only [get_key, hc, hr] at h2
        cases h2
        simp [get_key]
  · cases hc : w3.verifier with
    | some c =>
      simp only [get_verifier, hc] at h3
      cases h3
      simp [get_verifier, hc]
    | none =>
      cases hr : w3.rx_verifier with
      | nil =>
        simp only [get_verifier, hc, hr] at h3
        exact Option.noConfusion h3
      | cons c rest =>
        simp only [get_verifier, hc, hr] at h3
        cases h3
        simp [get_verifier]
  · cases hc : w4.versions with
    | some c =>
      simp only [get_versions, hc] at h4
      cases h4
      simp [get_versions, hc]
    | none =>
      cases hr : w4.rx_versions with
      | nil =>
        simp only [get_versions, hc, hr] at h4
        exact Option.noConfusion h4
      | cons c rest =>
        simp only [get_versions, hc, hr] at h4
        cases h4
        simp [get_versions]
  · cases hc : w5.welcome with
    | some c =>
      simp only [get_welcome, hc] at h5
      cases h5
      simp [get_welcome, hc]
    | none =>
      cases hr : w5.rx_welcome with
      | nil =>
        simp only [get_welcome, hc, hr] at h5
        exact Option.noConfusion h5
      | cons c rest =>
        simp only [get_welcome, hc, hr] at h5
        cases h5
        simp [get_welcome]

theorem C8_one_shot_getters_idempotent_witness :
    get_code ⟨some "4-purple-sausages", none, none, none, none,
        [], [[1]], ["w"], ["v"], [[2]]⟩
      = some ("4-purple-sausages",
        ⟨some "4-purple-sausages", none, none, none, none,
          [], [[1]], ["w"], ["v"], [[2]]⟩)
    ∧ get_key ⟨none, some [1], none, none, none,
        ["4-purple-sausages"], [], ["w"], ["v"], [[2]]⟩
      = some ([1], ⟨none, some [1], none, none, none,
          ["4-purple-sausages"], [], ["w"], ["v"], [[2]]⟩)
    ∧ get_verifier ⟨none, none, none, none, some [2],
        ["4-purple-sausages"], [[1]], ["w"], ["v"], []⟩
      = some ([2], ⟨none, none, none, none, some [2],
          ["4-purple-sausages"], [[1]], ["w"], ["v"], []⟩)
    ∧ get_versions ⟨none, none, none, some "v", none,
        ["4-purple-sausages"], [[1]], ["w"], [], [[2]]⟩
      = some ("v", ⟨none, none, none, some "v", none,
          ["4-purple-sausages"], [[1]], ["w"], [], [[2]]⟩)
    ∧ get_welcome ⟨none, none, some "w", none, none,
        ["4-purple-sausages"], [[1]], [], ["v"], [[2]]⟩
      = some ("w", ⟨none, none, some "w", none, none,
          ["4-purple-sausages"], [[1]], [], ["v"], [[2]]⟩) :=
  C8_one_shot_getters_idempotent
    ⟨none, none, none, none, none,
      ["4-purple-sausages"], [[1]], ["w"], ["v"], [[2]]⟩
    "4-purple-sausages"
    ⟨some "4-purple-sausages", none, none, none, none,
      [], [[1]], ["w"], ["v"], [[2]]⟩ rfl
    ⟨none, none, none, none, none,
      ["4-purple-sausages"], [[1]], ["w"], ["v"], [[2]]⟩
    [1]
    ⟨none, some [1], none, none, none,
      ["4-purple-sausages"], [], ["w"], ["v"], [[2]]⟩ rfl
    ⟨none, none, none, none, none,
      ["4-purple-sausages"], [[1]], ["w"], ["v"], [[2]]⟩
    [2]
    ⟨none, none, none, none, some [2],
      ["4-purple-sausages"], [[1]], ["w"], ["v"], []⟩ rfl
    ⟨none, none, none, none, none,
      ["4-purple-sausages"], [[1]], ["w"], ["v"], [[2]]⟩
    "v"
    ⟨none, none, none, some "v", none,
      ["4-purple-sausages"], [[1]], ["w"], [], [[2]]⟩ rfl
    ⟨none, none, none, none, none,
      ["4-purple-sausages"], [[1]], ["w"], ["v"], [[2]]⟩
    "w"
    ⟨none, none, some "w", none, none,
      ["4-purple-sausages"], [[1]], [], ["v"], [[2]]⟩ rfl

end MagicWormhole
